import Mathlib

/-
  Verification development for the filefreezer client core
  (cmd/freezer/command: file operations and the authenticated
  request dispatcher, plus the chunked-read primitive).

  The Go source is shallowly embedded as pure Lean functions.
  External collaborators (the network transport, the file catalog
  endpoint, the string encryption primitive, regexp compilation and
  JSON unmarshalling of opaque wire shapes) are modelled as oracle
  fields of the `State` structure, mirroring how the spec treats them
  as black boxes.  Every embedded function also returns the list of
  observable calls it makes (catalog fetches and HTTP requests), so
  that dry-run and request-issuance properties can be stated.

  Go control effects are made explicit in the `Outcome` type:
  `ok`/`err` are the ordinary (value, error) returns, `fatal` models
  `log.Fatalf` (process termination), and `panicked` models a Go
  runtime panic (e.g. a nil pointer dereference).
-/

set_option autoImplicit false
set_option linter.unusedVariables false

/-- The current-version record of a file (models.FileVersionInfo as used by
file.go: only the version number is relevant to these claims). -/
structure VersionInfo where
  versionNumber : Int
deriving Repr, DecidableEq

/-- A catalog entry (filefreezer.FileInfo): file id, encrypted file name and
the current version record. -/
structure FileInfo where
  fileID : Int
  fileName : String
  currentVersion : VersionInfo
deriving Repr, DecidableEq

instance {ε α : Type} [DecidableEq ε] [DecidableEq α] : DecidableEq (Except ε α) :=
  fun a b =>
  match a, b with
  | .ok x, .ok y =>
    if h : x = y then .isTrue (by rw [h]) else .isFalse (by simp [h])
  | .ok _, .error _ => .isFalse (by simp)
  | .error _, .ok _ => .isFalse (by simp)
  | .error x, .error y =>
    if h : x = y then .isTrue (by rw [h]) else .isFalse (by simp [h])

/-- The request body passed to RunAuthRequest (Go `interface{}`).
Wire shapes are opaque per the spec, so the delete-versions request struct is
kept structurally; any other structured value carries its JSON marshal
outcome, and a raw byte slice is passed through untouched. -/
inductive ReqBody where
  | noBody : ReqBody
  | byteSlice (raw : String) : ReqBody
  | deleteVersions (minVersion maxVersion : Int) : ReqBody
  | jsonOther (marshal : Except String String) : ReqBody
deriving Repr, DecidableEq

/-- The marshal failure of a request body, if any.  `json.Marshal` of the
two-int delete-versions struct cannot fail; a raw byte slice is not
marshalled at all. -/
def ReqBody.marshalFailure : ReqBody → Option String
  | .jsonOther (.error e) => some e
  | _ => none

/-- An HTTP request as handed to `client.Do` (target URL, method, body). -/
structure Request where
  target : String
  method : String
  body : ReqBody
deriving Repr, DecidableEq

/-- Result of `client.Do` plus `ioutil.ReadAll` on the response body:
either a transport-level failure (in which case Go's `resp` is nil), or a
response with its status code, status text (Go `resp.Status`) and the
outcome of reading its body. -/
inductive TransportResult where
  | failure (msg : String)
  | response (status : Nat) (statusText : String) (readResult : Except String String)
deriving Repr, DecidableEq

/-- An observable remote call made by the client: the catalog fetch
(GetAllFileHashes) or an HTTP request dispatched through RunAuthRequest. -/
inductive Call where
  | catalogFetch : Call
  | request (req : Request) : Call
deriving Repr, DecidableEq

/-- The result of running a Go function, with control effects explicit:
`ok`/`err` are ordinary returns, `fatal` is `log.Fatalf`, `panicked` is a
runtime panic.  `fatal` and `panicked` propagate unconditionally since no
function in this code recovers. -/
inductive Outcome (α : Type) where
  | ok (val : α)
  | err (msg : String)
  | fatal (msg : String)
  | panicked (msg : String)
deriving Repr, DecidableEq

/-- The command State object.  `hostURI` and `authToken` are fields of the
Go struct.  The remaining fields are the oracles for external collaborators:
`tlsClientError` is the outcome of `getHTTPClient` (`some` = construction
failed), `transport` is `client.Do` plus the body read, `allFileHashes` and
`decrypt` model the State methods `GetAllFileHashes` and `DecryptString`
(modelled from the spec: their code is not part of this core — the catalog
is fetched in one request and names decrypt via a black-box transform),
`compileRx` models `regexp.Compile` (a compiled pattern is its match
predicate), and `unmarshalDeleteVersions` models `json.Unmarshal` into the
opaque FileDeleteVersionsResponse wire shape (its boolean Status field). -/
structure State where
  hostURI : String
  authToken : String
  tlsClientError : Option String
  transport : Request → TransportResult
  allFileHashes : Except String (List FileInfo)
  decrypt : String → Except String String
  compileRx : String → Except String (String → Bool)
  unmarshalDeleteVersions : String → Except String Bool

/-- Message of the Go runtime panic raised by dereferencing a nil pointer. -/
def nilDerefMsg : String :=
  "runtime error: invalid memory address or nil pointer dereference"

/-- Embeds State.RunAuthRequest (part_000 lines 127-169).  Serializes the
request body (marshal failure returns early), builds the client (TLS
construction failure returns early), performs the request and reads the
body.  NOTE: when `client.Do` fails at transport level, `resp` is nil and
the Go error formatting reads `resp.Status`, which is a nil pointer
dereference — modelled as `panicked`.  Success is exactly HTTP 200; any
other status returns an error carrying the status text and the body.
Headers (Authorization, Content-Type) are not modelled; no claim concerns
them. -/
def State.RunAuthRequest (s : State) (target method token : String)
    (reqBody : ReqBody) : Outcome String × List Call :=
  match reqBody.marshalFailure with
  | some e => (.err ("Failed to JSON serialize the data object passed in: " ++ e), [])
  | none =>
    match s.tlsClientError with
    | some e => (.err e, [])
    | none =>
      let req : Request := ⟨target, method, reqBody⟩
      match s.transport req with
      | .failure _ => (.panicked nilDerefMsg, [.request req])
      | .response status statusText readResult =>
        match readResult with
        | .error e =>
          (.err ("Failed to read the response body from " ++ target ++ ": " ++ e),
           [.request req])
        | .ok body =>
          if status ≠ 200 then
            (.err ("Failed to make the HTTP " ++ method ++ " request to " ++ target ++
                   " (status: " ++ statusText ++ "): " ++ body),
             [.request req])
          else
            (.ok body, [.request req])

/-- Modelled from the spec: State.GetAllFileHashes fetches the complete
remote file catalog in one request (its code is outside this core; only
its callers are in src).  The fetch is recorded as a `catalogFetch` call. -/
def State.GetAllFileHashes (s : State) : Except String (List FileInfo) × List Call :=
  (s.allFileHashes, [Call.catalogFetch])

/-- The scan loop of GetFileInfoByFilename (file.go lines 31-40): decrypt
each entry's name, abort on the raw decryption error, return the first
match, fall through to the not-found error. -/
def findFileLoop (s : State) (filename : String) : List FileInfo → Except String FileInfo
  | [] => .error ("could not find the file: " ++ filename)
  | fi :: rest =>
    match s.decrypt fi.fileName with
    | .error e => .error e
    | .ok decryptedFilename =>
      if decryptedFilename = filename then .ok fi
      else findFileLoop s filename rest

/-- Embeds State.GetFileInfoByFilename (file.go lines 22-43). -/
def State.GetFileInfoByFilename (s : State) (filename : String) :
    Except String FileInfo × List Call :=
  let (res, calls) := s.GetAllFileHashes
  match res with
  | .error e => (.error ("failed to getall of the file hashes: " ++ e), calls)
  | .ok allFileInfos => (findFileLoop s filename allFileInfos, calls)

/-- Embeds State.RmFile (file.go lines 49-66). -/
def State.RmFile (s : State) (filename : String) (dryRun : Bool) :
    Outcome Unit × List Call :=
  let (fiRes, calls1) := s.GetFileInfoByFilename filename
  match fiRes with
  | .error e => (.err e, calls1)
  | .ok fi =>
    if !dryRun then
      let target := s.hostURI ++ "/api/file/" ++ toString fi.fileID
      let (res, calls2) := s.RunAuthRequest target "DELETE" s.authToken .noBody
      match res with
      | .ok _ => (.ok (), calls1 ++ calls2)
      | .err e => (.err ("Failed to remove the file " ++ filename ++ ": " ++ e), calls1 ++ calls2)
      | .fatal m => (.fatal m, calls1 ++ calls2)
      | .panicked m => (.panicked m, calls1 ++ calls2)
    else (.ok (), calls1)

/-- The per-entry loop of RmRxFiles (file.go lines 83-101): decrypt, test
the pattern, delete unless on a dry run; the first failure returns. -/
def rmRxFilesLoop (s : State) (compiledFilter : String → Bool) (dryRun : Bool) :
    List FileInfo → Outcome Unit × List Call
  | [] => (.ok (), [])
  | fi :: rest =>
    match s.decrypt fi.fileName with
    | .error e => (.err ("failed to decrypt one of the file names: " ++ e), [])
    | .ok plaintextFilename =>
      if compiledFilter plaintextFilename then
        if !dryRun then
          let target := s.hostURI ++ "/api/file/" ++ toString fi.fileID
          let (res, calls) := s.RunAuthRequest target "DELETE" s.authToken .noBody
          match res with
          | .ok _ =>
            let (res2, calls2) := rmRxFilesLoop s compiledFilter dryRun rest
            (res2, calls ++ calls2)
          | .err e =>
            (.err ("Failed to remove the file " ++ plaintextFilename ++ ": " ++ e), calls)
          | .fatal m => (.fatal m, calls)
          | .panicked m => (.panicked m, calls)
        else rmRxFilesLoop s compiledFilter dryRun rest
      else rmRxFilesLoop s compiledFilter dryRun rest

/-- Embeds State.RmRxFiles (file.go lines 72-104). -/
def State.RmRxFiles (s : State) (pattern : String) (dryRun : Bool) :
    Outcome Unit × List Call :=
  let (allRes, calls1) := s.GetAllFileHashes
  match allRes with
  | .error e => (.err ("could not get all of the files from the server: " ++ e), calls1)
  | .ok allFiles =>
    match s.compileRx pattern with
    | .error e => (.err ("failed to compile the regular expression: " ++ e), calls1)
    | .ok compiledFilter =>
      let (res, calls2) := rmRxFilesLoop s compiledFilter dryRun allFiles
      (res, calls1 ++ calls2)

/-- The error returned when the requested max version is not below the
current version (file.go line 157; the typo is the source's). -/
def rangeErrMsg : String :=
  "the maxiumum version number cannot be equal or greater than the current version number"

/-- The error returned when a 200 response carries Status == false
(file.go lines 175 and 238). -/
def statusFalseMsg : String :=
  "an unknown error caused a failed status to be returned while deleting file versions"

/-- Embeds State.RmFileVersions (file.go lines 146-179).  The range check
runs before the dry-run branch; the delete request carries the supplied
(minVersion, maxVersion) pair unvalidated. -/
def State.RmFileVersions (s : State) (filename : String)
    (minVersion maxVersion : Int) (dryRun : Bool) : Outcome Unit × List Call :=
  let (fiRes, calls1) := s.GetFileInfoByFilename filename
  match fiRes with
  | .error e => (.err e, calls1)
  | .ok fi =>
    if maxVersion ≥ fi.currentVersion.versionNumber then
      (.err rangeErrMsg, calls1)
    else if !dryRun then
      let target := s.hostURI ++ "/api/file/" ++ toString fi.fileID ++ "/versions"
      let (res, calls2) :=
        s.RunAuthRequest target "DELETE" s.authToken (.deleteVersions minVersion maxVersion)
      match res with
      | .ok body =>
        match s.unmarshalDeleteVersions body with
        | .error e => (.err ("Failed to delete the file versions: " ++ e), calls1 ++ calls2)
        | .ok status =>
          if !status then (.err statusFalseMsg, calls1 ++ calls2)
          else (.ok (), calls1 ++ calls2)
      | .err e =>
        (.err ("Failed to delete the file versions for " ++ target ++ ": " ++ e),
         calls1 ++ calls2)
      | .fatal m => (.fatal m, calls1 ++ calls2)
      | .panicked m => (.panicked m, calls1 ++ calls2)
    else (.ok (), calls1)

/-- Digit-run parser underlying `atoi`: consumes the whole character list,
failing on any non-digit. -/
def atoiDigits : List Char → Nat → Option Nat
  | [], acc => some acc
  | c :: rest, acc =>
    if c.isDigit then atoiDigits rest (acc * 10 + (c.toNat - 48)) else none

/-- Embeds Go's strconv.Atoi: optional sign, decimal digits, syntax error
otherwise, range error outside the 64-bit int range. -/
def atoi (str : String) : Except String Int :=
  let chars := str.toList
  let signed : Bool × List Char :=
    match chars with
    | '-' :: rest => (true, rest)
    | '+' :: rest => (false, rest)
    | _ => (false, chars)
  match signed with
  | (neg, digits) =>
    if digits.isEmpty then
      .error ("strconv.Atoi: parsing \"" ++ str ++ "\": invalid syntax")
    else
      match atoiDigits digits 0 with
      | none => .error ("strconv.Atoi: parsing \"" ++ str ++ "\": invalid syntax")
      | some n =>
        let v : Int := if neg then -(n : Int) else (n : Int)
        if v < -(2 ^ 63) ∨ 2 ^ 63 ≤ v then
          .error ("strconv.Atoi: parsing \"" ++ str ++ "\": value out of range")
        else .ok v

/-- The per-file max-version resolution of RmRxFileVersions (file.go lines
202-210): the sentinel "H~" resolves to currentVersion - 1; anything else
is parsed with strconv.Atoi, and a parse failure is `log.Fatalf`. -/
def resolveMaxVersion (fi : FileInfo) (maxVersionStr : String) : Outcome Int :=
  if maxVersionStr = "H~" then .ok (fi.currentVersion.versionNumber - 1)
  else
    match atoi maxVersionStr with
    | .error e => .fatal ("Failed to parse the supplied max version as a number: " ++ e)
    | .ok maxVersion => .ok maxVersion

/-- The non-dry delete of one matched file in RmRxFileVersions (file.go
lines 221-239): issue the ranged delete, unmarshal the response, check the
Status flag. -/
def rmRxDeleteStep (s : State) (plaintextFilename : String) (fi : FileInfo)
    (minVersion maxVersion : Int) : Outcome Unit × List Call :=
  let target := s.hostURI ++ "/api/file/" ++ toString fi.fileID ++ "/versions"
  let (res, calls) :=
    s.RunAuthRequest target "DELETE" s.authToken (.deleteVersions minVersion maxVersion)
  match res with
  | .ok body =>
    match s.unmarshalDeleteVersions body with
    | .error e =>
      (.err ("Failed to delete the file versions for " ++ plaintextFilename ++ ": " ++ e),
       calls)
    | .ok status =>
      if !status then (.err statusFalseMsg, calls)
      else (.ok (), calls)
  | .err e =>
    (.err ("Failed to delete the file versions for " ++ plaintextFilename ++ ": " ++ e),
     calls)
  | .fatal m => (.fatal m, calls)
  | .panicked m => (.panicked m, calls)

/-- The per-entry loop of RmRxFileVersions (file.go lines 195-244):
decrypt, test the pattern, resolve the max version (possibly fatally),
silently skip when it is not below the current version, delete unless on a
dry run; the first failure returns, aborting the remaining entries. -/
def rmRxFileVersionsLoop (s : State) (compiledFilter : String → Bool)
    (minVersion : Int) (maxVersionStr : String) (dryRun : Bool) :
    List FileInfo → Outcome Unit × List Call
  | [] => (.ok (), [])
  | fi :: rest =>
    match s.decrypt fi.fileName with
    | .error e => (.err ("failed to decrypt one of the file names: " ++ e), [])
    | .ok plaintextFilename =>
      if compiledFilter plaintextFilename then
        match resolveMaxVersion fi maxVersionStr with
        | .fatal m => (.fatal m, [])
        | .err m => (.err m, [])
        | .panicked m => (.panicked m, [])
        | .ok maxVersion =>
          if maxVersion ≥ fi.currentVersion.versionNumber then
            rmRxFileVersionsLoop s compiledFilter minVersion maxVersionStr dryRun rest
          else if !dryRun then
            let (res, calls) := rmRxDeleteStep s plaintextFilename fi minVersion maxVersion
            match res with
            | .ok _ =>
              let (res2, calls2) :=
                rmRxFileVersionsLoop s compiledFilter minVersion maxVersionStr dryRun rest
              (res2, calls ++ calls2)
            | .err e => (.err e, calls)
            | .fatal m => (.fatal m, calls)
            | .panicked m => (.panicked m, calls)
          else rmRxFileVersionsLoop s compiledFilter minVersion maxVersionStr dryRun rest
      else rmRxFileVersionsLoop s compiledFilter minVersion maxVersionStr dryRun rest

/-- Embeds State.RmRxFileVersions (file.go lines 184-247). -/
def State.RmRxFileVersions (s : State) (pattern : String) (minVersion : Int)
    (maxVersionStr : String) (dryRun : Bool) : Outcome Unit × List Call :=
  let (allRes, calls1) := s.GetAllFileHashes
  match allRes with
  | .error e => (.err ("could not get all of the files from the server: " ++ e), calls1)
  | .ok allFiles =>
    match s.compileRx pattern with
    | .error e => (.err ("failed to compile the regular expression: " ++ e), calls1)
    | .ok compiledFilter =>
      let (res, calls2) :=
        rmRxFileVersionsLoop s compiledFilter minVersion maxVersionStr dryRun allFiles
      (res, calls1 ++ calls2)

/-- The truncation error of forEachChunk (part_000 line 189; the typo is the
source's): raised when `io.ReadAtLeast` reports `ErrUnexpectedEOF` (at
least one byte but fewer than chunkSize were read) on a chunk that is not
the last expected one. -/
def truncatedMsg (filename : String) : String :=
  "nexpeced EOF while reading the file " ++ filename

/-- The generic read error of forEachChunk (part_000 line 192) as produced
when `io.ReadAtLeast` returns plain `io.EOF` (zero bytes read): readCount
is 0 and the formatted cause is "EOF". -/
def eofReadMsg (filename : String) : String :=
  "an error occured while reading 0 bytes from the file " ++ filename ++ ": EOF"

/-- The loop of forEachChunk (part_000 lines 183-205), reading from `data`
at position `pos` with `remaining` iterations left (the loop variable is
`i = localChunkCount - remaining`).  `io.ReadAtLeast f buffer chunkSize`
reads `min chunkSize avail` bytes where `avail` is the number of bytes left:
it reports `ErrUnexpectedEOF` when `0 < avail < chunkSize` and plain `EOF`
when `avail = 0 < chunkSize`.  The visitor returns Go's `(contLoop, err)`
pair; visited `(chunkNumber, bytes)` pairs are recorded. -/
def forEachChunkLoop (chunkSize : Nat) (filename : String) (data : List Nat)
    (localChunkCount : Nat) (eachFunc : Nat → List Nat → Bool × Option String) :
    Nat → Nat → Except String Unit × List (Nat × List Nat)
  | 0, _ => (.ok (), [])
  | remaining + 1, pos =>
    let i := localChunkCount - (remaining + 1)
    let avail := data.length - pos
    let readCount := min chunkSize avail
    let clampedBuffer := (data.drop pos).take readCount
    if avail = 0 ∧ 0 < chunkSize then
      (.error (eofReadMsg filename), [])
    else if avail < chunkSize ∧ remaining + 1 ≠ 1 then
      (.error (truncatedMsg filename), [])
    else
      match eachFunc i clampedBuffer with
      | (_, some e) => (.error e, [(i, clampedBuffer)])
      | (contLoop, none) =>
        if contLoop then
          let (res, visits) :=
            forEachChunkLoop chunkSize filename data localChunkCount eachFunc
              remaining (pos + readCount)
          (res, (i, clampedBuffer) :: visits)
        else (.ok (), [(i, clampedBuffer)])

/-- Embeds forEachChunk (part_000 lines 173-208).  The local file is the
byte list carried by `file` (`.error` = `os.Open` failed with that cause).
Besides the source's error-or-unit result, the list of (chunkNumber, bytes)
pairs handed to the visitor is returned so yield-order and content
properties can be stated. -/
def forEachChunk (chunkSize : Nat) (filename : String)
    (file : Except String (List Nat)) (localChunkCount : Nat)
    (eachFunc : Nat → List Nat → Bool × Option String) :
    Except String Unit × List (Nat × List Nat) :=
  match file with
  | .error e => (.error ("Failed to open the file " ++ filename ++ ": " ++ e), [])
  | .ok data => forEachChunkLoop chunkSize filename data localChunkCount eachFunc localChunkCount 0

/-- Specification-side description of the chunk sequence: starting at index
`i`, `r` chunks of `chunkSize` bytes cut from `rest` (the final take may be
shorter).  Used to characterize the visits of `forEachChunkLoop`. -/
def goChunks (chunkSize : Nat) : Nat → Nat → List Nat → List (Nat × List Nat)
  | _, 0, _ => []
  | i, r + 1, rest =>
    (i, rest.take chunkSize) :: goChunks chunkSize (i + 1) r (rest.drop chunkSize)

/-- A convenient concrete State for witnesses: plain client, catalog as
given, and the supplied decryption, transport and unmarshal oracles. -/
def mkState (files : List FileInfo) (dec : String → Except String String)
    (tr : Request → TransportResult) (um : String → Except String Bool) : State :=
  ⟨"http://host", "tok", none, tr, .ok files, dec, fun _ => .ok (fun _ => true), um⟩

/-- Identity decryption oracle: every stored name decrypts to itself. -/
def okDec : String → Except String String := fun c => .ok c

/-- A transport that answers every request with HTTP 200 and body
"respbody". -/
def tr200 : Request → TransportResult :=
  fun _ => .response 200 "200 OK" (.ok "respbody")

/-- Two files, both with five versions; the server accepts deletions
(Status true). -/
def stOkTrue : State :=
  mkState [⟨1, "a", ⟨5⟩⟩, ⟨2, "b", ⟨5⟩⟩] okDec tr200 (fun _ => .ok true)

/-- Two files, both with five versions; every delete-versions response
carries Status false. -/
def stOkFalse : State :=
  mkState [⟨1, "a", ⟨5⟩⟩, ⟨2, "b", ⟨5⟩⟩] okDec tr200 (fun _ => .ok false)

/-- One file whose current version number is 0 (a single-version file under
zero-based numbering). -/
def stSingle0 : State :=
  mkState [⟨1, "a", ⟨0⟩⟩] okDec tr200 (fun _ => .ok true)

/-- A state whose transport fails at transport level (Go `client.Do`
returns an error and a nil response). -/
def stTransportFail : State :=
  mkState [⟨1, "a", ⟨5⟩⟩] okDec (fun _ => .failure "connection refused")
    (fun _ => .ok true)

/-- A transport that answers every request with HTTP 404. -/
def stNon200 : State :=
  mkState [] okDec (fun _ => .response 404 "404 Not Found" (.ok "page not found"))
    (fun _ => .ok true)

/-- A catalog whose second entry fails to decrypt; the first and third
decrypt to themselves. -/
def stCorrupt : State :=
  mkState [⟨1, "first", ⟨0⟩⟩, ⟨2, "corrupt", ⟨0⟩⟩, ⟨3, "target", ⟨0⟩⟩]
    (fun c => if c = "corrupt" then .error "cipher: message authentication failed"
              else .ok c)
    tr200 (fun _ => .ok true)

theorem getFileInfo_snd (s : State) (filename : String) :
    (s.GetFileInfoByFilename filename).snd = [.catalogFetch] := by
  cases h : s.allFileHashes <;>
    simp [State.GetFileInfoByFilename, State.GetAllFileHashes, h]

theorem getFileInfo_pair (s : State) (filename : String) (x : Except String FileInfo)
    (h : (s.GetFileInfoByFilename filename).fst = x) :
    s.GetFileInfoByFilename filename = (x, [.catalogFetch]) := by
  have hs := getFileInfo_snd s filename
  cases hp : s.GetFileInfoByFilename filename
  rw [hp] at h hs
  simp at h hs
  rw [h, hs]

theorem runAuth_ok_response (s : State) (target method tok statusText body : String)
    (reqBody : ReqBody) (htls : s.tlsClientError = none)
    (hm : reqBody.marshalFailure = none)
    (htr : s.transport ⟨target, method, reqBody⟩ = .response 200 statusText (.ok body)) :
    s.RunAuthRequest target method tok reqBody =
      (.ok body, [.request ⟨target, method, reqBody⟩]) := by
  simp [State.RunAuthRequest, hm, htls, htr]

theorem runAuth_non200 (s : State) (target method tok statusText body : String)
    (status : Nat) (reqBody : ReqBody) (htls : s.tlsClientError = none)
    (hm : reqBody.marshalFailure = none) (hst : status ≠ 200)
    (htr : s.transport ⟨target, method, reqBody⟩ =
      .response status statusText (.ok body)) :
    s.RunAuthRequest target method tok reqBody =
      (.err ("Failed to make the HTTP " ++ method ++ " request to " ++ target ++
             " (status: " ++ statusText ++ "): " ++ body),
       [.request ⟨target, method, reqBody⟩]) := by
  simp [State.RunAuthRequest, hm, htls, htr, hst]

theorem runAuth_snd (s : State) (target method tok : String) (reqBody : ReqBody)
    (htls : s.tlsClientError = none) (hm : reqBody.marshalFailure = none) :
    (s.RunAuthRequest target method tok reqBody).snd =
      [.request ⟨target, method, reqBody⟩] := by
  simp only [State.RunAuthRequest, hm, htls]
  cases htr : s.transport ⟨target, method, reqBody⟩ with
  | failure m => simp
  | response status statusText readResult =>
    cases readResult with
    | error e => simp
    | ok body => by_cases hst : status = 200 <;> simp [hst]

/-- Claim C1, counterexample: in the regex-batch version prune, a failed
status on the first matched file's deletion aborts the whole batch: the
run returns that error and the trace holds a single delete request — no
request for the second matched file (id 2) is ever issued, so no per-file
outcome exists for it. -/
theorem claim_C1_counterexample :
    stOkFalse.RmRxFileVersions ".*" 0 "1" false =
      (.err statusFalseMsg,
       [.catalogFetch,
        .request ⟨"http://host/api/file/1/versions", "DELETE", .deleteVersions 0 1⟩])
    ∧ Call.request ⟨"http://host/api/file/2/versions", "DELETE", .deleteVersions 0 1⟩ ∉
        (stOkFalse.RmRxFileVersions ".*" 0 "1" false).snd := by
  constructor <;> decide

/-- Claim C2: with a matched file whose current version number is 0, the
relative sentinel resolves to -1, but the file is NOT silently skipped —
the skip guard `maxVersion >= currentVersion` is false at -1 >= 0, so the
ranged-delete request is issued carrying maxVersion = -1, contradicting
the code's own comment (file.go lines 212-214) and the spec. -/
theorem claim_C2_sentinel_not_skipped :
    resolveMaxVersion ⟨1, "a", ⟨0⟩⟩ "H~" = .ok (-1)
    ∧ stSingle0.RmRxFileVersions ".*" 0 "H~" false =
      (.ok (),
       [.catalogFetch,
        .request ⟨"http://host/api/file/1/versions", "DELETE", .deleteVersions 0 (-1)⟩]) := by
  constructor <;> decide

/-- Claim C3: two error conditions do NOT return an error value to the
caller: a max-version string that is neither the sentinel nor a valid
integer makes the regex-batch prune terminate the process via log.Fatalf,
and a transport-level failure of an authenticated request panics on a nil
pointer dereference (resp.Status is read while resp is nil). -/
theorem claim_C3_termination_paths :
    stOkTrue.RmRxFileVersions ".*" 0 "abc" false =
      (.fatal ("Failed to parse the supplied max version as a number: " ++
               "strconv.Atoi: parsing \"abc\": invalid syntax"),
       [.catalogFetch])
    ∧ stTransportFail.RunAuthRequest "http://host/api/file/1" "DELETE" "tok" .noBody =
      (.panicked nilDerefMsg,
       [.request ⟨"http://host/api/file/1", "DELETE", .noBody⟩]) := by
  constructor <;> decide

/-- Claim C9, counterexample: filename resolution can succeed against a
catalog with a corrupt entry — when the sought name matches an entry
earlier in catalog order than the corrupt one, the scan returns the match
and never reaches the corrupt entry. -/
theorem claim_C9_counterexample :
    stCorrupt.allFileHashes =
      .ok [⟨1, "first", ⟨0⟩⟩, ⟨2, "corrupt", ⟨0⟩⟩, ⟨3, "target", ⟨0⟩⟩]
    ∧ stCorrupt.decrypt "corrupt" = .error "cipher: message authentication failed"
    ∧ stCorrupt.GetFileInfoByFilename "first" = (.ok ⟨1, "first", ⟨0⟩⟩, [.catalogFetch]) := by
  refine ⟨rfl, by decide, by decide⟩

/-- Claim C4, counterexample: when the file is exhausted exactly on a chunk
boundary, the first chunk read past the end sees a zero-byte read (plain
io.EOF, not ErrUnexpectedEOF), and the stream fails with the generic read
error, not the truncation error. -/
theorem claim_C4_counterexample :
    forEachChunk 1 "f" (.ok [7]) 2 (fun _ _ => (true, none)) =
      (.error (eofReadMsg "f"), [(0, [7])])
    ∧ eofReadMsg "f" ≠ truncatedMsg "f" := by
  constructor <;> decide

/-- Claim C1, amended: in the regex-batch version prune, one matched
file's deletion failure (request error, unmarshal error, or a false server
status flag — every `.err` outcome of the per-file delete step) aborts the
batch immediately: the loop returns that error, its calls are exactly the
failing file's calls, and the remaining entries are not processed. -/
theorem claim_C1_batch_abort (s : State) (compiledFilter : String → Bool)
    (minVersion maxVersion : Int) (maxVersionStr plaintextFilename msg : String)
    (fi : FileInfo) (rest : List FileInfo)
    (hdec : s.decrypt fi.fileName = .ok plaintextFilename)
    (hf : compiledFilter plaintextFilename = true)
    (hmv : resolveMaxVersion fi maxVersionStr = .ok maxVersion)
    (hrange : maxVersion < fi.currentVersion.versionNumber)
    (hfail : (rmRxDeleteStep s plaintextFilename fi minVersion maxVersion).fst = .err msg) :
    rmRxFileVersionsLoop s compiledFilter minVersion maxVersionStr false (fi :: rest) =
      (.err msg, (rmRxDeleteStep s plaintextFilename fi minVersion maxVersion).snd) := by
  have hlt : ¬ maxVersion ≥ fi.currentVersion.versionNumber := by omega
  rcases hps : rmRxDeleteStep s plaintextFilename fi minVersion maxVersion with ⟨res, calls⟩
  rw [hps] at hfail
  simp only at hfail
  subst hfail
  simp [rmRxFileVersionsLoop, hdec, hf, hmv, hlt, hps]

/-- Witness for claim C1's amended theorem: with two matched files and a
server that answers every deletion with Status false, the loop aborts on
the first file. -/
theorem claim_C1_batch_abort_witness :
    rmRxFileVersionsLoop stOkFalse (fun _ => true) 0 "1" false
        [⟨1, "a", ⟨5⟩⟩, ⟨2, "b", ⟨5⟩⟩] =
      (.err statusFalseMsg, (rmRxDeleteStep stOkFalse "a" ⟨1, "a", ⟨5⟩⟩ 0 1).snd) :=
  claim_C1_batch_abort stOkFalse (fun _ => true) 0 1 "1" "a" statusFalseMsg
    ⟨1, "a", ⟨5⟩⟩ [⟨2, "b", ⟨5⟩⟩] (by decide) rfl (by decide) (by decide) (by decide)

/-- Skipping lemma: catalog entries that decrypt to a name other than the
sought one are passed over by the resolution scan. -/
theorem findFileLoop_skip (s : State) (filename : String) :
    ∀ (pre l : List FileInfo),
      (∀ p ∈ pre, ∃ nm, s.decrypt p.fileName = .ok nm ∧ nm ≠ filename) →
      findFileLoop s filename (pre ++ l) = findFileLoop s filename l := by
  intro pre
  induction pre with
  | nil => intro l _; rfl
  | cons p ps ih =>
    intro l hpre
    obtain ⟨nm, hnm, hne⟩ := hpre p (by simp)
    simp only [List.cons_append, findFileLoop, hnm]
    rw [if_neg hne]
    exact ih l (fun q hq => hpre q (by simp [hq]))

/-- Claim C9, amended: if every catalog entry before position k decrypts to
a non-matching name and the entry at position k fails to decrypt, filename
resolution fails with that raw decryption error — even when the sought file
sits later in the catalog and has not yet been reached. -/
theorem claim_C9_decrypt_abort (s : State) (filename e : String)
    (pre : List FileInfo) (fi : FileInfo) (rest : List FileInfo)
    (hcat : s.allFileHashes = .ok (pre ++ fi :: rest))
    (hpre : ∀ p ∈ pre, ∃ nm, s.decrypt p.fileName = .ok nm ∧ nm ≠ filename)
    (hfi : s.decrypt fi.fileName = .error e) :
    (s.GetFileInfoByFilename filename).fst = .error e := by
  simp only [State.GetFileInfoByFilename, State.GetAllFileHashes, hcat]
  rw [findFileLoop_skip s filename pre (fi :: rest) hpre]
  simp [findFileLoop, hfi]

/-- Witness for claim C9's amended theorem: the corrupt second entry aborts
resolution of "target" (which sits third, past the corruption) with the
decryption error. -/
theorem claim_C9_decrypt_abort_witness :
    (stCorrupt.GetFileInfoByFilename "target").fst =
      .error "cipher: message authentication failed" :=
  claim_C9_decrypt_abort stCorrupt "target" "cipher: message authentication failed"
    [⟨1, "first", ⟨0⟩⟩] ⟨2, "corrupt", ⟨0⟩⟩ [⟨3, "target", ⟨0⟩⟩] rfl
    (fun p hp => by
      have hp1 : p = ⟨1, "first", ⟨0⟩⟩ := by simpa using hp
      subst hp1
      exact ⟨"first", by decide, by decide⟩)
    (by decide)

/-- Claim C5: single-file version prune.  (1) maxVersion ≥ the current
version number fails with the invalid-range error before any mutating
request (the trace is exactly the catalog fetch) and the check also runs
in dry-run mode; (2) maxVersion = currentVersion - 1 with a 200 response
whose status flag is true succeeds; (3) a 200 response whose status flag
is false fails with the server-rejected error. -/
theorem claim_C5_rmFileVersions (s : State) (filename : String) (fi : FileInfo)
    (minVersion maxVersion : Int) (dryRun : Bool) (statusText body : String)
    (hres : (s.GetFileInfoByFilename filename).fst = .ok fi) :
    (maxVersion ≥ fi.currentVersion.versionNumber →
      s.RmFileVersions filename minVersion maxVersion dryRun =
        (.err rangeErrMsg, [.catalogFetch]))
    ∧ (maxVersion = fi.currentVersion.versionNumber - 1 →
       s.tlsClientError = none →
       s.transport ⟨s.hostURI ++ "/api/file/" ++ toString fi.fileID ++ "/versions",
         "DELETE", .deleteVersions minVersion maxVersion⟩ =
           .response 200 statusText (.ok body) →
       s.unmarshalDeleteVersions body = .ok true →
       (s.RmFileVersions filename minVersion maxVersion false).fst = .ok ())
    ∧ (maxVersion = fi.currentVersion.versionNumber - 1 →
       s.tlsClientError = none →
       s.transport ⟨s.hostURI ++ "/api/file/" ++ toString fi.fileID ++ "/versions",
         "DELETE", .deleteVersions minVersion maxVersion⟩ =
           .response 200 statusText (.ok body) →
       s.unmarshalDeleteVersions body = .ok false →
       (s.RmFileVersions filename minVersion maxVersion false).fst =
         .err statusFalseMsg) := by
  have hpair := getFileInfo_pair s filename _ hres
  refine ⟨?_, ?_, ?_⟩
  · intro hge
    simp only [State.RmFileVersions, hpair]
    simp [hge]
  · intro hmax htls htr hum
    have hlt : ¬ maxVersion ≥ fi.currentVersion.versionNumber := by omega
    have hra := runAuth_ok_response s
      (s.hostURI ++ "/api/file/" ++ toString fi.fileID ++ "/versions") "DELETE"
      s.authToken statusText body (.deleteVersions minVersion maxVersion) htls rfl htr
    simp only [State.RmFileVersions, hpair]
    simp [hlt, hra, hum]
  · intro hmax htls htr hum
    have hlt : ¬ maxVersion ≥ fi.currentVersion.versionNumber := by omega
    have hra := runAuth_ok_response s
      (s.hostURI ++ "/api/file/" ++ toString fi.fileID ++ "/versions") "DELETE"
      s.authToken statusText body (.deleteVersions minVersion maxVersion) htls rfl htr
    simp only [State.RmFileVersions, hpair]
    simp [hlt, hra, hum]

/-- Witness for claim C5: on the concrete two-file states (current version
number 5), maxVersion 5 fails the range check even on a dry run, maxVersion
4 succeeds when Status is true and is rejected when Status is false. -/
theorem claim_C5_rmFileVersions_witness :
    stOkTrue.RmFileVersions "a" 0 5 true = (.err rangeErrMsg, [.catalogFetch])
    ∧ (stOkTrue.RmFileVersions "a" 0 4 false).fst = .ok ()
    ∧ (stOkFalse.RmFileVersions "a" 0 4 false).fst = .err statusFalseMsg :=
  ⟨(claim_C5_rmFileVersions stOkTrue "a" ⟨1, "a", ⟨5⟩⟩ 0 5 true "200 OK" "respbody"
      (by decide)).1 (by decide),
   (claim_C5_rmFileVersions stOkTrue "a" ⟨1, "a", ⟨5⟩⟩ 0 4 false "200 OK" "respbody"
      (by decide)).2.1 (by decide) rfl (by decide) (by decide),
   (claim_C5_rmFileVersions stOkFalse "a" ⟨1, "a", ⟨5⟩⟩ 0 4 false "200 OK" "respbody"
      (by decide)).2.2 (by decide) rfl (by decide) (by decide)⟩

theorem rmRxFilesLoop_dry_snd (s : State) (compiledFilter : String → Bool) :
    ∀ l : List FileInfo, (rmRxFilesLoop s compiledFilter true l).snd = [] := by
  intro l
  induction l with
  | nil => simp [rmRxFilesLoop]
  | cons fi rest ih =>
    simp only [rmRxFilesLoop]
    cases hdec : s.decrypt fi.fileName with
    | error e => simp
    | ok name => by_cases hf : compiledFilter name <;> simp [hf, ih]

theorem rmRxFileVersionsLoop_dry_snd (s : State) (compiledFilter : String → Bool)
    (minVersion : Int) (maxVersionStr : String) :
    ∀ l : List FileInfo,
      (rmRxFileVersionsLoop s compiledFilter minVersion maxVersionStr true l).snd = [] := by
  intro l
  induction l with
  | nil => simp [rmRxFileVersionsLoop]
  | cons fi rest ih =>
    simp only [rmRxFileVersionsLoop]
    cases hdec : s.decrypt fi.fileName with
    | error e => simp
    | ok name =>
      by_cases hf : compiledFilter name
      · cases hmv : resolveMaxVersion fi maxVersionStr with
        | ok maxV =>
          by_cases hskip : maxV ≥ fi.currentVersion.versionNumber <;>
            simp [hf, hmv, hskip, ih]
        | err m => simp [hf, hmv]
        | fatal m => simp [hf, hmv]
        | panicked m => simp [hf, hmv]
      · simp [hf, ih]

/-- Claim C6: every prune/removal operation invoked with dryRun = true
issues zero mutating (DELETE) requests — its call trace is exactly the
read-only catalog fetch — while validation still runs: the single-file
range check still rejects maxVersion ≥ currentVersion on a dry run. -/
theorem claim_C6_dryRun (s : State) (filename pattern maxVersionStr : String)
    (minVersion maxVersion : Int) :
    (s.RmFile filename true).snd = [.catalogFetch]
    ∧ (s.RmRxFiles pattern true).snd = [.catalogFetch]
    ∧ (s.RmFileVersions filename minVersion maxVersion true).snd = [.catalogFetch]
    ∧ (s.RmRxFileVersions pattern minVersion maxVersionStr true).snd = [.catalogFetch]
    ∧ (∀ fi : FileInfo, (s.GetFileInfoByFilename filename).fst = .ok fi →
        maxVersion ≥ fi.currentVersion.versionNumber →
        s.RmFileVersions filename minVersion maxVersion true =
          (.err rangeErrMsg, [.catalogFetch])) := by
  refine ⟨?_, ?_, ?_, ?_, ?_⟩
  · cases hfi : (s.GetFileInfoByFilename filename).fst with
    | error e =>
      have hpair := getFileInfo_pair s filename _ hfi
      simp [State.RmFile, hpair]
    | ok fi =>
      have hpair := getFileInfo_pair s filename _ hfi
      simp [State.RmFile, hpair]
  · simp only [State.RmRxFiles, State.GetAllFileHashes]
    cases hall : s.allFileHashes with
    | error e => simp
    | ok files =>
      cases hcmp : s.compileRx pattern with
      | error e => simp
      | ok compiledFilter => simp [rmRxFilesLoop_dry_snd]
  · cases hfi : (s.GetFileInfoByFilename filename).fst with
    | error e =>
      have hpair := getFileInfo_pair s filename _ hfi
      simp [State.RmFileVersions, hpair]
    | ok fi =>
      have hpair := getFileInfo_pair s filename _ hfi
      by_cases hge : maxVersion ≥ fi.currentVersion.versionNumber <;>
        simp [State.RmFileVersions, hpair, hge]
  · simp only [State.RmRxFileVersions, State.GetAllFileHashes]
    cases hall : s.allFileHashes with
    | error e => simp
    | ok files =>
      cases hcmp : s.compileRx pattern with
      | error e => simp
      | ok compiledFilter => simp [rmRxFileVersionsLoop_dry_snd]
  · intro fi hfi hge
    have hpair := getFileInfo_pair s filename _ hfi
    simp [State.RmFileVersions, hpair, hge]

/-- Witness for claim C6 on a concrete state: dry runs of all four removal
operations trace only the catalog fetch, and the dry-run range check
rejects maxVersion 7 against current version 5. -/
theorem claim_C6_dryRun_witness :
    (stOkTrue.RmFile "a" true).snd = [.catalogFetch]
    ∧ (stOkTrue.RmRxFiles ".*" true).snd = [.catalogFetch]
    ∧ (stOkTrue.RmFileVersions "a" 0 7 true).snd = [.catalogFetch]
    ∧ (stOkTrue.RmRxFileVersions ".*" 0 "H~" true).snd = [.catalogFetch]
    ∧ stOkTrue.RmFileVersions "a" 0 7 true = (.err rangeErrMsg, [.catalogFetch]) := by
  obtain ⟨h1, h2, h3, h4, h5⟩ := claim_C6_dryRun stOkTrue "a" ".*" "H~" 0 7
  exact ⟨h1, h2, h3, h4, h5 ⟨1, "a", ⟨5⟩⟩ (by decide) (by decide)⟩

/-- Claim C8: for any URL, method, token and (marshalable) body whose
exchange completes with a readable response, the dispatcher returns the raw
response body as success exactly when the HTTP status is 200; any other
status returns an error whose text carries the literal status text and the
response payload, and no body is ever returned as success. -/
theorem claim_C8_dispatcher (s : State) (target method tok statusText body : String)
    (status : Nat) (reqBody : ReqBody)
    (htls : s.tlsClientError = none) (hm : reqBody.marshalFailure = none)
    (htr : s.transport ⟨target, method, reqBody⟩ = .response status statusText (.ok body)) :
    ((s.RunAuthRequest target method tok reqBody).fst = .ok body ↔ status = 200)
    ∧ (status ≠ 200 →
       (s.RunAuthRequest target method tok reqBody).fst =
         .err ("Failed to make the HTTP " ++ method ++ " request to " ++ target ++
               " (status: " ++ statusText ++ "): " ++ body))
    ∧ (∀ anyBody : String,
       (s.RunAuthRequest target method tok reqBody).fst = .ok anyBody → status = 200) := by
  by_cases hst : status = 200
  · subst hst
    rw [runAuth_ok_response s target method tok statusText body reqBody htls hm htr]
    simp
  · rw [runAuth_non200 s target method tok statusText body status reqBody htls hm hst htr]
    simp [hst]

/-- Witness for claim C8: a 404 response is never surfaced as success and
its error carries the status text and the payload; a 200 response returns
the raw body. -/
theorem claim_C8_dispatcher_witness :
    ((stNon200.RunAuthRequest "http://host/api/file/1" "DELETE" "tok" .noBody).fst =
        .ok "page not found" ↔ (404 : Nat) = 200)
    ∧ (stNon200.RunAuthRequest "http://host/api/file/1" "DELETE" "tok" .noBody).fst =
        .err ("Failed to make the HTTP " ++ "DELETE" ++ " request to " ++
              "http://host/api/file/1" ++ " (status: " ++ "404 Not Found" ++ "): " ++
              "page not found")
    ∧ (stOkTrue.RunAuthRequest "http://host/api/file/1" "GET" "tok" .noBody).fst =
        .ok "respbody" := by
  obtain ⟨h1, h2, _⟩ := claim_C8_dispatcher stNon200 "http://host/api/file/1" "DELETE"
    "tok" "404 Not Found" "page not found" 404 .noBody rfl rfl rfl
  refine ⟨h1, h2 (by decide), ?_⟩
  exact (claim_C8_dispatcher stOkTrue "http://host/api/file/1" "GET" "tok" "200 OK"
    "respbody" 200 .noBody rfl rfl rfl).1.mpr rfl

/-- Claim C10: the single-file version prune performs no validation of
minVersion: whatever its value (negative, or greater than maxVersion),
provided the file resolves, the client constructs and maxVersion is below
the current version, the ranged-delete request is issued carrying exactly
the supplied (minVersion, maxVersion) pair — the trace is the catalog fetch
followed by that one DELETE request, for every transport behaviour. -/
theorem claim_C10_minVersion_unvalidated (s : State) (filename : String) (fi : FileInfo)
    (minVersion maxVersion : Int)
    (hres : (s.GetFileInfoByFilename filename).fst = .ok fi)
    (htls : s.tlsClientError = none)
    (hrange : maxVersion < fi.currentVersion.versionNumber) :
    (s.RmFileVersions filename minVersion maxVersion false).snd =
      [.catalogFetch,
       .request ⟨s.hostURI ++ "/api/file/" ++ toString fi.fileID ++ "/versions", "DELETE",
         .deleteVersions minVersion maxVersion⟩] := by
  have hpair := getFileInfo_pair s filename _ hres
  have hlt : ¬ maxVersion ≥ fi.currentVersion.versionNumber := by omega
  rcases hra : s.RunAuthRequest
      (s.hostURI ++ "/api/file/" ++ toString fi.fileID ++ "/versions") "DELETE"
      s.authToken (.deleteVersions minVersion maxVersion) with ⟨res, calls2⟩
  have hc2 : calls2 =
      [.request ⟨s.hostURI ++ "/api/file/" ++ toString fi.fileID ++ "/versions", "DELETE",
        .deleteVersions minVersion maxVersion⟩] := by
    have hsnd := runAuth_snd s
      (s.hostURI ++ "/api/file/" ++ toString fi.fileID ++ "/versions") "DELETE"
      s.authToken (.deleteVersions minVersion maxVersion) htls rfl
    rw [hra] at hsnd
    exact hsnd
  subst hc2
  simp only [State.RmFileVersions, hpair]
  cases res with
  | ok body =>
    cases hum : s.unmarshalDeleteVersions body with
    | error e => simp [hlt, hra, hum]
    | ok status => cases status <;> simp [hlt, hra, hum]
  | err e => simp [hlt, hra]
  | fatal m => simp [hlt, hra]
  | panicked m => simp [hlt, hra]

/-- Witness for claim C10: a negative minVersion (-5) and a minVersion
greater than maxVersion (7 > 4) are both dispatched untouched. -/
theorem claim_C10_minVersion_unvalidated_witness :
    (stOkTrue.RmFileVersions "a" (-5) 4 false).snd =
      [.catalogFetch,
       .request ⟨"http://host" ++ "/api/file/" ++ toString (1 : Int) ++ "/versions",
         "DELETE", .deleteVersions (-5) 4⟩]
    ∧ (stOkTrue.RmFileVersions "a" 7 4 false).snd =
      [.catalogFetch,
       .request ⟨"http://host" ++ "/api/file/" ++ toString (1 : Int) ++ "/versions",
         "DELETE", .deleteVersions 7 4⟩] :=
  ⟨claim_C10_minVersion_unvalidated stOkTrue "a" ⟨1, "a", ⟨5⟩⟩ (-5) 4
      (by decide) rfl (by decide),
   claim_C10_minVersion_unvalidated stOkTrue "a" ⟨1, "a", ⟨5⟩⟩ 7 4
      (by decide) rfl (by decide)⟩

theorem goChunks_map_fst (chunkSize : Nat) :
    ∀ (r i : Nat) (rest : List Nat),
      (goChunks chunkSize i r rest).map Prod.fst = List.range' i r := by
  intro r
  induction r with
  | zero => intro i rest; simp [goChunks]
  | succ n ih => intro i rest; simp [goChunks, List.range'_succ, ih]

theorem goChunks_flatten (chunkSize : Nat) :
    ∀ (r i : Nat) (rest : List Nat), rest.length ≤ chunkSize * r →
      ((goChunks chunkSize i r rest).map Prod.snd).flatten = rest := by
  intro r
  induction r with
  | zero =>
    intro i rest h
    have hnil : rest = [] := List.length_eq_zero.mp (by omega)
    simp [goChunks, hnil]
  | succ n ih =>
    intro i rest h
    have h2 : (rest.drop chunkSize).length ≤ chunkSize * n := by
      rw [List.length_drop]
      rw [Nat.mul_succ] at h
      omega
    simp only [goChunks, List.map_cons, List.flatten_cons, ih (i + 1) _ h2]
    exact List.take_append_drop chunkSize rest

theorem goChunks_concat (chunkSize : Nat) :
    ∀ (r i : Nat) (rest : List Nat),
      ∃ l0, goChunks chunkSize i (r + 1) rest =
        l0 ++ [(i + r, (rest.drop (chunkSize * r)).take chunkSize)] := by
  intro r
  induction r with
  | zero => intro i rest; exact ⟨[], by simp [goChunks]⟩
  | succ n ih =>
    intro i rest
    obtain ⟨l0, hl0⟩ := ih (i + 1) (rest.drop chunkSize)
    refine ⟨(i, rest.take chunkSize) :: l0, ?_⟩
    have hunf : goChunks chunkSize i (n + 1 + 1) rest =
        (i, rest.take chunkSize) ::
          goChunks chunkSize (i + 1) (n + 1) (rest.drop chunkSize) := rfl
    rw [hunf, hl0, List.drop_drop]
    rw [show chunkSize + chunkSize * n = chunkSize * (n + 1) by rw [Nat.mul_succ]; omega]
    rw [show i + 1 + n = i + (n + 1) by omega]
    simp

theorem forEachChunkLoop_ok (chunkSize : Nat) (hC : 0 < chunkSize) (fn : String)
    (data : List Nat) (count : Nat) (f : Nat → List Nat → Bool × Option String)
    (hf : ∀ i c, f i c = (true, none)) :
    ∀ (r pos : Nat), r ≤ count → data.length - pos ≤ chunkSize * r →
      chunkSize * r < (data.length - pos) + chunkSize →
      forEachChunkLoop chunkSize fn data count f r pos =
        (.ok (), goChunks chunkSize (count - r) r (data.drop pos)) := by
  intro r
  induction r with
  | zero => intro pos h1 h2 h3; simp [forEachChunkLoop, goChunks]
  | succ n ih =>
    intro pos h1 h2 h3
    rw [Nat.mul_succ] at h2 h3
    have h4 : chunkSize * n < data.length - pos := by omega
    simp only [forEachChunkLoop]
    rw [if_neg (by omega : ¬(data.length - pos = 0 ∧ 0 < chunkSize))]
    by_cases hge : chunkSize ≤ data.length - pos
    · rw [if_neg (by omega : ¬(data.length - pos < chunkSize ∧ n + 1 ≠ 1))]
      simp only [hf]
      rw [min_eq_left hge]
      rw [ih (pos + chunkSize) (by omega) (by omega) (by omega)]
      have hdrop : (data.drop pos).drop chunkSize = data.drop (pos + chunkSize) :=
        List.drop_drop chunkSize pos data
      have hidx : count - (n + 1) + 1 = count - n := by omega
      have hrhs : goChunks chunkSize (count - (n + 1)) (n + 1) (data.drop pos) =
          (count - (n + 1), (data.drop pos).take chunkSize) ::
            goChunks chunkSize (count - n) n (data.drop (pos + chunkSize)) := by
        rw [show goChunks chunkSize (count - (n + 1)) (n + 1) (data.drop pos) =
            (count - (n + 1), (data.drop pos).take chunkSize) ::
              goChunks chunkSize (count - (n + 1) + 1) n ((data.drop pos).drop chunkSize)
          from rfl, hidx, hdrop]
      rw [hrhs]
      simp
    · push_neg at hge
      have hn0 : n = 0 := by
        cases n with
        | zero => rfl
        | succ m =>
          exfalso
          rw [Nat.mul_succ] at h4
          omega
      subst hn0
      rw [if_neg (by omega : ¬(data.length - pos < chunkSize ∧ 0 + 1 ≠ 1))]
      simp only [hf]
      have hlendrop : (data.drop pos).length = data.length - pos := List.length_drop pos data
      rw [min_eq_right (Nat.le_of_lt hge)]
      rw [show forEachChunkLoop chunkSize fn data count f 0 (pos + (data.length - pos)) =
          (.ok (), []) from rfl]
      have htake1 : (data.drop pos).take (data.length - pos) = data.drop pos :=
        List.take_of_length_le (by rw [hlendrop])
      have htake2 : (data.drop pos).take chunkSize = data.drop pos :=
        List.take_of_length_le (by rw [hlendrop]; exact Nat.le_of_lt hge)
      simp [goChunks, htake1, htake2]

theorem lastChunkLen (chunkSize N k : Nat) (hC : 0 < chunkSize)
    (h1 : chunkSize * k < N) (h2 : N ≤ chunkSize * (k + 1)) :
    N - chunkSize * k = if N % chunkSize = 0 then chunkSize else N % chunkSize := by
  have hdm := Nat.div_add_mod N chunkSize
  have hrem : N % chunkSize < chunkSize := Nat.mod_lt _ hC
  rw [Nat.mul_succ] at h2
  by_cases h0 : N % chunkSize = 0
  · rw [if_pos h0]
    rw [h0, Nat.add_zero] at hdm
    have hk1 : k < N / chunkSize := by
      by_contra hcon
      push_neg at hcon
      have hmul := Nat.mul_le_mul_left chunkSize hcon
      omega
    have hk2 : N / chunkSize ≤ k + 1 := by
      by_contra hcon
      push_neg at hcon
      have hmul := Nat.mul_le_mul_left chunkSize hcon
      rw [Nat.mul_succ, Nat.mul_succ] at hmul
      omega
    have hq : N / chunkSize = k + 1 := by omega
    rw [hq, Nat.mul_succ] at hdm
    omega
  · rw [if_neg h0]
    have hq : N / chunkSize = k := by
      by_contra hne
      rcases Nat.lt_or_ge (N / chunkSize) k with hlt | hge2
      · have hle : N / chunkSize + 1 ≤ k := hlt
        have hmul := Nat.mul_le_mul_left chunkSize hle
        rw [Nat.mul_succ] at hmul
        omega
      · have hgt : k + 1 ≤ N / chunkSize := Nat.lt_of_le_of_ne hge2 (Ne.symm hne)
        have hmul := Nat.mul_le_mul_left chunkSize hgt
        rw [Nat.mul_succ] at hmul
        omega
    rw [hq] at hdm
    omega

/-- Claim C7: streaming a file of N bytes with chunk size C > 0, expected
chunk count exactly ceil(N/C) and a visitor that always continues succeeds,
yields chunks whose chunk numbers are 0, 1, ... in order, whose
concatenation is exactly the file's bytes, and whose final chunk (when the
file is nonempty) has length N mod C, or C when C divides N. -/
theorem claim_C7_stream (chunkSize : Nat) (fn : String) (data : List Nat) (count : Nat)
    (f : Nat → List Nat → Bool × Option String)
    (hC : 0 < chunkSize) (hf : ∀ i c, f i c = (true, none))
    (hcount : count = (data.length + chunkSize - 1) / chunkSize) :
    (forEachChunk chunkSize fn (.ok data) count f).fst = .ok ()
    ∧ (forEachChunk chunkSize fn (.ok data) count f).snd.map Prod.fst = List.range count
    ∧ ((forEachChunk chunkSize fn (.ok data) count f).snd.map Prod.snd).flatten = data
    ∧ (data ≠ [] →
       ((forEachChunk chunkSize fn (.ok data) count f).snd.getLast?).map
           (fun p => p.2.length) =
         some (if data.length % chunkSize = 0 then chunkSize
               else data.length % chunkSize)) := by
  have hdm := Nat.div_add_mod (data.length + chunkSize - 1) chunkSize
  have hrem := Nat.mod_lt (data.length + chunkSize - 1) hC
  have hub : data.length ≤ chunkSize * count := by rw [hcount]; omega
  have hlb : chunkSize * count < data.length + chunkSize := by rw [hcount]; omega
  have heq := forEachChunkLoop_ok chunkSize hC fn data count f hf count 0
    (Nat.le_refl count) (by omega) (by omega)
  rw [Nat.sub_self, List.drop_zero] at heq
  have hfe : forEachChunk chunkSize fn (.ok data) count f =
      (.ok (), goChunks chunkSize 0 count data) := heq
  refine ⟨by rw [hfe], ?_, ?_, ?_⟩
  · rw [hfe]
    show (goChunks chunkSize 0 count data).map Prod.fst = List.range count
    rw [goChunks_map_fst, List.range_eq_range']
  · rw [hfe]
    exact goChunks_flatten chunkSize count 0 data hub
  · intro hne
    rw [hfe]
    have hpos : 0 < data.length := List.length_pos.mpr hne
    have hcpos : 0 < count := by
      by_contra hc0
      push_neg at hc0
      have hc00 : count = 0 := by omega
      rw [hc00, Nat.mul_zero] at hub
      omega
    obtain ⟨k, rfl⟩ : ∃ k, count = k + 1 := ⟨count - 1, by omega⟩
    have hk1 : chunkSize * k < data.length := by
      rw [Nat.mul_succ] at hlb; omega
    have hk2 : data.length ≤ chunkSize * (k + 1) := hub
    obtain ⟨l0, hl0⟩ := goChunks_concat chunkSize k 0 data
    rw [hl0]
    have hlast : (l0 ++ [(0 + k, (data.drop (chunkSize * k)).take chunkSize)]).getLast? =
        some (0 + k, (data.drop (chunkSize * k)).take chunkSize) :=
      List.getLast?_concat l0
    rw [hlast]
    have hlen : ((data.drop (chunkSize * k)).take chunkSize).length =
        data.length - chunkSize * k := by
      rw [List.length_take, List.length_drop]
      rw [Nat.mul_succ] at hk2
      exact min_eq_right (by omega)
    simp only [Option.map_some']
    rw [hlen, lastChunkLen chunkSize data.length k hC hk1 hk2]

/-- Witness for claim C7: a three-byte file streamed in chunks of two with
expected count ceil(3/2) = 2 succeeds, yields chunk numbers [0, 1], its
chunks concatenate to the file and the last chunk has length 3 mod 2 = 1. -/
theorem claim_C7_stream_witness :
    (forEachChunk 2 "f" (.ok [1, 2, 3]) 2 (fun _ _ => (true, none))).fst = .ok ()
    ∧ (forEachChunk 2 "f" (.ok [1, 2, 3]) 2 (fun _ _ => (true, none))).snd.map Prod.fst =
        List.range 2
    ∧ ((forEachChunk 2 "f" (.ok [1, 2, 3]) 2 (fun _ _ => (true, none))).snd.map
        Prod.snd).flatten = [1, 2, 3]
    ∧ (([1, 2, 3] : List Nat) ≠ [] →
       ((forEachChunk 2 "f" (.ok [1, 2, 3]) 2 (fun _ _ => (true, none))).snd.getLast?).map
           (fun p => p.2.length) =
         some (if ([1, 2, 3] : List Nat).length % 2 = 0 then 2
               else ([1, 2, 3] : List Nat).length % 2)) :=
  claim_C7_stream 2 "f" [1, 2, 3] 2 (fun _ _ => (true, none)) (by decide)
    (fun _ _ => rfl) (by decide)

theorem forEachChunkLoop_overrun (chunkSize : Nat) (hC : 0 < chunkSize) (fn : String)
    (data : List Nat) (count : Nat) (f : Nat → List Nat → Bool × Option String)
    (hf : ∀ i c, f i c = (true, none)) :
    ∀ (r pos : Nat), 0 < r → data.length - pos ≤ chunkSize * (r - 1) →
      (forEachChunkLoop chunkSize fn data count f r pos).fst =
        .error (if (data.length - pos) % chunkSize = 0 then eofReadMsg fn
                else truncatedMsg fn) := by
  intro r
  induction r using Nat.strong_induction_on with
  | _ r ih =>
    intro pos hr h
    obtain ⟨m, rfl⟩ : ∃ m, r = m + 1 := ⟨r - 1, by omega⟩
    simp only [Nat.add_sub_cancel] at h
    simp only [forEachChunkLoop]
    by_cases h0 : data.length - pos = 0
    · rw [if_pos ⟨h0, hC⟩, h0]
      simp
    · rw [if_neg (by omega : ¬(data.length - pos = 0 ∧ 0 < chunkSize))]
      have hm : 0 < m := by
        rcases Nat.eq_zero_or_pos m with rfl | hm
        · rw [Nat.mul_zero] at h; omega
        · exact hm
      by_cases hlt : data.length - pos < chunkSize
      · rw [if_pos ⟨hlt, by omega⟩]
        rw [Nat.mod_eq_of_lt hlt, if_neg h0]
      · push_neg at hlt
        rw [if_neg (by omega : ¬(data.length - pos < chunkSize ∧ m + 1 ≠ 1))]
        simp only [hf]
        rw [min_eq_left hlt]
        have hmc : chunkSize * (m - 1) + chunkSize = chunkSize * m := by
          rw [← Nat.mul_succ]
          congr 1
          omega
        have hrec := ih m (by omega) (pos + chunkSize) hm (by omega)
        have hmod : (data.length - (pos + chunkSize)) % chunkSize =
            (data.length - pos) % chunkSize := by
          have hsum : data.length - pos =
              (data.length - (pos + chunkSize)) + chunkSize := by omega
          rw [hsum, Nat.add_mod_right]
        rw [hmod] at hrec
        rcases hpair : forEachChunkLoop chunkSize fn data count f m (pos + chunkSize)
          with ⟨res, visits⟩
        rw [hpair] at hrec
        simp only at hrec
        simp [hpair, hrec]

/-- Claim C4, amended: streaming with an expected chunk count strictly
greater than ceil(N/C) (always-continuing visitor) fails on the first
chunk read after the file's bytes run short: with the truncation error
when that read still returns at least one byte (N mod C ≠ 0), but with
the generic read error — io.ReadAtLeast reports plain EOF, not
ErrUnexpectedEOF — when the file is exhausted exactly on a chunk boundary
(N mod C = 0, including N = 0). -/
theorem claim_C4_overrun (chunkSize : Nat) (fn : String) (data : List Nat) (count : Nat)
    (f : Nat → List Nat → Bool × Option String)
    (hC : 0 < chunkSize) (hf : ∀ i c, f i c = (true, none))
    (hcount : (data.length + chunkSize - 1) / chunkSize < count) :
    (forEachChunk chunkSize fn (.ok data) count f).fst =
      .error (if data.length % chunkSize = 0 then eofReadMsg fn
              else truncatedMsg fn) := by
  have hdm := Nat.div_add_mod (data.length + chunkSize - 1) chunkSize
  have hrem := Nat.mod_lt (data.length + chunkSize - 1) hC
  have hub : data.length ≤ chunkSize * ((data.length + chunkSize - 1) / chunkSize) := by
    omega
  have hcpos : 0 < count := Nat.lt_of_le_of_lt (Nat.zero_le _) hcount
  have hle : (data.length + chunkSize - 1) / chunkSize ≤ count - 1 :=
    Nat.le_sub_one_of_lt hcount
  have hub2 := Nat.mul_le_mul_left chunkSize hle
  have hstart : data.length - 0 ≤ chunkSize * (count - 1) := by omega
  have h := forEachChunkLoop_overrun chunkSize hC fn data count f hf count 0 hcpos hstart
  rw [Nat.sub_zero] at h
  exact h

/-- Witness for claim C4's amended theorem: a three-byte file, chunk size
two, expected chunk count 3 > ceil(3/2) = 2: the partial read of the second
chunk (one byte, not the last expected chunk) raises the truncation
error. -/
theorem claim_C4_overrun_witness :
    (forEachChunk 2 "f" (.ok [1, 2, 3]) 3 (fun _ _ => (true, none))).fst =
      .error (truncatedMsg "f") := by
  have h := claim_C4_overrun 2 "f" [1, 2, 3] 3 (fun _ _ => (true, none)) (by decide)
    (fun _ _ => rfl) (by decide)
  simpa using h
